import Mathlib

set_option maxRecDepth 100000

/-!
Verification of the embedded-module container decoder (src/extract.py).

The decoder's pure core is shallowly embedded here: byte buffers are
`List Nat` (each element a byte value), Python byte-slices are modelled with
their clamping semantics, `struct.unpack_from "<I"` with its end-relative
negative offsets and its out-of-range failure, `bytes.find` / `bytes.rfind`
as first/last occurrence search, and `bytes.decode("utf-8", errors="replace")`
as a total decoder that substitutes U+FFFD for each maximal invalid subpart.
Failures (`assert`, `struct.error`) are modelled with `Except FormatError`.
-/

namespace Extract

/-- Errors the decoder can raise: the trailer-assert failure, the
chunk-size-assert failure, and a `struct.error` from an out-of-range read. -/
inductive FormatError where
  | trailerMismatch
  | unknownRecordWidth
  | structError
deriving Repr, DecidableEq

deriving instance DecidableEq for Except

/-- Python byte-slice `s[a : b]` for non-negative `a`, `b`: clamps to the
buffer, never fails. -/
def pySlice (s : List Nat) (a b : Nat) : List Nat :=
  (s.take b).drop a

/-- Python byte-slice `s[a :]` for a possibly negative `a`: a negative start
counts from the end of the buffer and clamps at 0. -/
def pySliceFrom (s : List Nat) (a : Int) : List Nat :=
  if a < 0 then s.drop (max 0 ((s.length : Int) + a)).toNat else s.drop a.toNat

/-- Little-endian 32-bit value of four bytes. -/
def leU32 (b0 b1 b2 b3 : Nat) : Nat :=
  b0 + b1 * 256 + b2 * 65536 + b3 * 16777216

/-- The little-endian u32 at byte position `p` of `s` (positions assumed in
bounds; out-of-bounds positions read the default byte 0). -/
def readU32 (s : List Nat) (p : Nat) : Nat :=
  leU32 (s.getD p 0) (s.getD (p + 1) 0) (s.getD (p + 2) 0) (s.getD (p + 3) 0)

/-- `struct.unpack_from("<I", s, off)`: a negative offset counts from the end
of the buffer; reading outside the buffer raises `struct.error`. -/
def pyUnpackU32 (s : List Nat) (off : Int) : Except FormatError Nat :=
  let pos : Int := if off < 0 then (s.length : Int) + off else off
  if 0 ≤ pos ∧ pos + 4 ≤ (s.length : Int) then
    Except.ok (readU32 s pos.toNat)
  else
    Except.error FormatError.structError

/-- The byte values of the constant `BUN_TRAILER = b"\n---- Bun! ----\n"`. -/
def BUN_TRAILER : List Nat :=
  [10, 45, 45, 45, 45, 32, 66, 117, 110, 33, 32, 45, 45, 45, 45, 10]

/-- The parsed footer: four u32 fields read from the end of the section. -/
structure Footer where
  offset_byte_count : Nat
  entrypoint_id : Nat
  modules_ptr_offset : Nat
  modules_ptr_length : Nat
deriving Repr, DecidableEq

/-- `parse_footer(section)`: verify the trailer at the end of the section,
then read the four little-endian u32 footer fields at offsets
-48, -44, -40, -36 from the end. -/
def parse_footer (sec : List Nat) : Except FormatError Footer :=
  let section_size := sec.length
  let trailer := pySliceFrom sec ((section_size : Int) - (BUN_TRAILER.length : Int))
  if trailer = BUN_TRAILER then do
    let offset_byte_count ← pyUnpackU32 sec ((section_size : Int) + (-48))
    let entrypoint_id ← pyUnpackU32 sec ((section_size : Int) + (-44))
    let modules_ptr_offset ← pyUnpackU32 sec ((section_size : Int) + (-40))
    let modules_ptr_length ← pyUnpackU32 sec ((section_size : Int) + (-36))
    Except.ok ⟨offset_byte_count, entrypoint_id, modules_ptr_offset, modules_ptr_length⟩
  else
    Except.error FormatError.trailerMismatch

/-- `bytes.find(needle)`: index of the first occurrence of `needle` in `s`
(`none` when absent; Python returns -1 there). -/
def bytesFind (needle : List Nat) : List Nat → Option Nat
  | [] => if needle.isPrefixOf ([] : List Nat) then some 0 else none
  | a :: t =>
    if needle.isPrefixOf (a :: t) then some 0
    else (bytesFind needle t).map (· + 1)

/-- `bytes.rfind(needle)`: index of the last occurrence of `needle` in `s`
(`none` when absent; Python returns -1 there). -/
def bytesRfind (needle : List Nat) : List Nat → Option Nat
  | [] => if needle.isPrefixOf ([] : List Nat) then some 0 else none
  | a :: t =>
    match bytesRfind needle t with
    | some k => some (k + 1)
    | none => if needle.isPrefixOf (a :: t) then some 0 else none

/-- Is `b` a UTF-8 continuation byte (0x80..0xBF)? -/
def isCont (b : Nat) : Bool := 128 ≤ b ∧ b ≤ 191

/-- Admissible second byte of a 3-byte UTF-8 sequence led by `b0`. -/
def validSecond3 (b0 b1 : Nat) : Bool :=
  if b0 = 224 then 160 ≤ b1 ∧ b1 ≤ 191
  else if b0 = 237 then 128 ≤ b1 ∧ b1 ≤ 159
  else isCont b1

/-- Admissible second byte of a 4-byte UTF-8 sequence led by `b0`. -/
def validSecond4 (b0 b1 : Nat) : Bool :=
  if b0 = 240 then 144 ≤ b1 ∧ b1 ≤ 191
  else if b0 = 244 then 128 ≤ b1 ∧ b1 ≤ 143
  else isCont b1

/-- `bytes.decode("utf-8", errors="replace")` on CPython: codepoints of the
decoded string, with each maximal invalid subpart replaced by one U+FFFD
(65533). Total: never fails. -/
def utf8DecodeReplace : List Nat → List Nat
  | [] => []
  | b0 :: rest =>
    if b0 < 128 then b0 :: utf8DecodeReplace rest
    else if 194 ≤ b0 ∧ b0 ≤ 223 then
      match rest with
      | [] => [65533]
      | b1 :: rest1 =>
        if isCont b1 then ((b0 - 192) * 64 + (b1 - 128)) :: utf8DecodeReplace rest1
        else 65533 :: utf8DecodeReplace (b1 :: rest1)
    else if 224 ≤ b0 ∧ b0 ≤ 239 then
      match rest with
      | [] => [65533]
      | b1 :: rest1 =>
        if validSecond3 b0 b1 then
          match rest1 with
          | [] => [65533]
          | b2 :: rest2 =>
            if isCont b2 then
              ((b0 - 224) * 4096 + (b1 - 128) * 64 + (b2 - 128)) :: utf8DecodeReplace rest2
            else 65533 :: utf8DecodeReplace (b2 :: rest2)
        else 65533 :: utf8DecodeReplace (b1 :: rest1)
    else if 240 ≤ b0 ∧ b0 ≤ 244 then
      match rest with
      | [] => [65533]
      | b1 :: rest1 =>
        if validSecond4 b0 b1 then
          match rest1 with
          | [] => [65533]
          | b2 :: rest2 =>
            if isCont b2 then
              match rest2 with
              | [] => [65533]
              | b3 :: rest3 =>
                if isCont b3 then
                  ((b0 - 240) * 262144 + (b1 - 128) * 4096 + (b2 - 128) * 64 + (b3 - 128)) ::
                    utf8DecodeReplace rest3
                else 65533 :: utf8DecodeReplace (b3 :: rest3)
            else 65533 :: utf8DecodeReplace (b2 :: rest2)
        else 65533 :: utf8DecodeReplace (b1 :: rest1)
    else 65533 :: utf8DecodeReplace rest

/-- The byte values of the path marker `b"/$bunfs/root"`. -/
def BUNFS_ROOT : List Nat :=
  [47, 36, 98, 117, 110, 102, 115, 47, 114, 111, 111, 116]

/-- `str.strip(chars)`: remove the characters of `cs` from both ends. -/
def stripChars (cs : List Nat) (s : List Nat) : List Nat :=
  ((s.dropWhile (fun c => cs.contains c)).reverse.dropWhile
    (fun c => cs.contains c)).reverse

/-- The prefix-stripping loop over `("/$bunfs/root/", "/$bunfs/root")`: the
first matching prefix is removed, then the loop breaks. -/
def stripBunfsPrefix (path : List Nat) : List Nat :=
  if (BUNFS_ROOT ++ [47]).isPrefixOf path then path.drop (BUNFS_ROOT.length + 1)
  else if BUNFS_ROOT.isPrefixOf path then path.drop BUNFS_ROOT.length
  else path

/-- Decimal digit characters of `n`, as codepoints. -/
def natDigits (n : Nat) : List Nat := (Nat.toDigits 10 n).map Char.toNat

/-- The synthesized fallback name, `f"module_{i}.js"`, as codepoints. -/
def modulePlaceholder (i : Nat) : List Nat :=
  [109, 111, 100, 117, 108, 101, 95] ++ natDigits i ++ [46, 106, 115]

/-- `max(0, path_off - 50)`: start of the backward search window. -/
def searchStart (path_off : Nat) : Nat := (max 0 ((path_off : Int) - 50)).toNat

/-- `section[search_start : path_off + path_len + 10]`: the window scanned
for the last occurrence of the bunfs root marker. -/
def searchWindow (sec : List Nat) (path_off path_len : Nat) : List Nat :=
  pySlice sec (searchStart path_off) (path_off + path_len + 10)

/-- Lines 118-137 of `extract_modules`: recover the raw path string
(codepoints after UTF-8 replace-decoding) for one record. -/
def recover_raw_path (sec : List Nat) (path_off path_len : Nat) : List Nat :=
  match bytesRfind BUNFS_ROOT (searchWindow sec path_off path_len) with
  | some bunfs_idx =>
    let actual_start := searchStart path_off + bunfs_idx
    let null_end : Int :=
      match bytesFind [0] (sec.drop actual_start) with
      | some k => (actual_start : Int) + k
      | none => -1
    if 0 < null_end then
      utf8DecodeReplace (pySlice sec actual_start null_end.toNat)
    else
      utf8DecodeReplace
        ((pySlice sec actual_start (actual_start + path_len + 20)).takeWhile
          (fun b => b ≠ 0))
  | none => utf8DecodeReplace (pySlice sec path_off (path_off + path_len))

/-- Lines 118-146 of `extract_modules`: raw path recovery followed by prefix
stripping, edge stripping of `"/\n\t\x00"`, and the `module_<i>.js`
placeholder for an empty result. -/
def recover_path (sec : List Nat) (i path_off path_len : Nat) : List Nat :=
  let path := stripChars [47, 10, 9, 0]
    (stripBunfsPrefix (recover_raw_path sec path_off path_len))
  if path = [] then modulePlaceholder i else path

/-- The byte predicate of the text heuristic: printable ASCII or
tab/newline/carriage-return. -/
def isTextByte (b : Nat) : Bool :=
  (32 ≤ b ∧ b < 127) ∨ b = 9 ∨ b = 10 ∨ b = 13

/-- Lines 149-152: a module is text when more than 900 of its first 1000
content bytes satisfy `isTextByte`. -/
def is_text (contents : List Nat) : Bool :=
  900 < (contents.take 1000).countP isTextByte

/-- One extracted module. -/
structure Module where
  index : Nat
  path : List Nat
  contents : List Nat
  is_text : Bool
deriving Repr, DecidableEq

instance : Inhabited Module := ⟨⟨0, [], [], false⟩⟩

/-- The candidate record widths, in the order the code tries them. -/
def CHUNK_CANDIDATES : List Nat := [52, 28, 32]

/-- Lines 96-105: the first candidate width evenly dividing
`modules_ptr_length`, if any. -/
def inferChunkSize (modules_ptr_length : Nat) : Option Nat :=
  CHUNK_CANDIDATES.find? (fun cs => modules_ptr_length % cs == 0)

/-- `metadata_start = (len(section) - (offset_byte_count + 48)) +
modules_ptr_offset` (may be negative on hostile footers, hence `Int`). -/
def metadataStart (sec : List Nat) (footer : Footer) : Int :=
  (sec.length : Int) - ((footer.offset_byte_count : Int) + 48) +
    (footer.modules_ptr_offset : Int)

/-- The body of the per-record loop (lines 110-161): read the four u32
fields of record `i`, recover its path, slice its contents, classify. -/
def decodeRecord (sec : List Nat) (metadata_start : Int) (chunk_size i : Nat) :
    Except FormatError Module := do
  let meta_off : Int := metadata_start + (i : Int) * (chunk_size : Int)
  let path_off ← pyUnpackU32 sec meta_off
  let path_len ← pyUnpackU32 sec (meta_off + 4)
  let contents_off ← pyUnpackU32 sec (meta_off + 8)
  let contents_len ← pyUnpackU32 sec (meta_off + 12)
  let path := recover_path sec i path_off path_len
  let contents := pySlice sec contents_off (contents_off + contents_len)
  Except.ok ⟨i, path, contents, is_text contents⟩

/-- `extract_modules(section, footer)`: infer the chunk size, then decode
`modules_ptr_length / chunk_size` records in order; the first failing
record read aborts the whole decode. -/
def extract_modules (sec : List Nat) (footer : Footer) :
    Except FormatError (List Module) :=
  match inferChunkSize footer.modules_ptr_length with
  | none => Except.error FormatError.unknownRecordWidth
  | some chunk_size =>
    let num_modules := footer.modules_ptr_length / chunk_size
    (List.range num_modules).mapM
      (decodeRecord sec (metadataStart sec footer) chunk_size)

/-- The byte values of the CJS wrapper literal
`b"(function(exports, require, module, __filename, __dirname) \x7b"`. -/
def WRAPPER : List Nat :=
  [40, 102, 117, 110, 99, 116, 105, 111, 110, 40, 101, 120, 112, 111, 114,
   116, 115, 44, 32, 114, 101, 113, 117, 105, 114, 101, 44, 32, 109, 111,
   100, 117, 108, 101, 44, 32, 95, 95, 102, 105, 108, 101, 110, 97, 109,
   101, 44, 32, 95, 95, 100, 105, 114, 110, 97, 109, 101, 41, 32, 123]

/-- A leading byte the wrapper stripper skips: below 32 and not
tab/newline/carriage-return. -/
def isCtrlPad (b : Nat) : Bool :=
  b < 32 ∧ b ≠ 9 ∧ b ≠ 10 ∧ b ≠ 13

/-- ` strip_bytecode_prefix(contents)`: drop everything through the first
occurrence of the wrapper literal, then skip leading control padding;
return the input unchanged when the wrapper is absent. -/
def strip_bytecode_prefix (contents : List Nat) : List Nat :=
  match bytesFind WRAPPER contents with
  | none => contents
  | some pos =>
    let js := contents.drop (pos + WRAPPER.length)
    js.dropWhile isCtrlPad

/-- The last `n` bytes of `s`. -/
def lastBytes (n : Nat) (s : List Nat) : List Nat := s.drop (s.length - n)

/-- `parse_footer` as a function of the last 48 bytes of the section alone:
the trailer occupies their last 16 bytes, the four fields their first 16. -/
def footerFromLast (l : List Nat) : Except FormatError Footer :=
  if l.drop 32 = BUN_TRAILER then
    Except.ok ⟨readU32 l 0, readU32 l 4, readU32 l 8, readU32 l 12⟩
  else
    Except.error FormatError.trailerMismatch

/-- The u32 field at sub-offset `k` of record `i` (record width `cs`). -/
def recField (sec : List Nat) (footer : Footer) (cs i k : Nat) : Nat :=
  readU32 sec ((metadataStart sec footer + (i : Int) * (cs : Int)).toNat + k)

/-- The module that record `i` decodes to when all four of its metadata
reads are in bounds: the four u32 fields at sub-offsets 0, 4, 8, 12 of
`metadata_start + i * chunk_size` drive path recovery and the content
slice; the record's remaining bytes are not consulted. -/
def recordModule (sec : List Nat) (footer : Footer) (cs i : Nat) : Module :=
  ⟨i,
   recover_path sec i (recField sec footer cs i 0) (recField sec footer cs i 4),
   pySlice sec (recField sec footer cs i 8)
     (recField sec footer cs i 8 + recField sec footer cs i 12),
   is_text (pySlice sec (recField sec footer cs i 8)
     (recField sec footer cs i 8 + recField sec footer cs i 12))⟩

/-- Synthetic 100-byte container: one width-52 record at metadata offset 20
declaring `path_offset = 0, path_length = 4, content_offset = 40,
content_length = 4` (all slices in bounds). -/
def W1sec : List Nat :=
  List.replicate 20 0 ++ [0, 0, 0, 0, 4, 0, 0, 0, 40, 0, 0, 0, 4, 0, 0, 0] ++
    List.replicate 64 0

/-- Footer for `W1sec`: `metadata_start = 100 - (52 + 48) + 20 = 20`. -/
def W1foot : Footer := ⟨52, 0, 20, 52⟩

/-- Synthetic 100-byte container like `W1sec` but whose record declares
`content_offset = 90, content_length = 20`, overrunning the region end. -/
def C4sec : List Nat :=
  List.replicate 20 0 ++ [0, 0, 0, 0, 4, 0, 0, 0, 90, 0, 0, 0, 20, 0, 0, 0] ++
    List.replicate 64 0

/-- Footer for `C4sec`. -/
def C4foot : Footer := ⟨52, 0, 20, 52⟩

/-- A 48-byte region ending in the trailer, for the footer-parsing witness. -/
def W2sec : List Nat := List.replicate 32 7 ++ BUN_TRAILER

/-- A region that starts with `b"/$bunfs/root/foo.js\x00"`: path recovery at
`path_offset = 5, path_length = 10` finds the marker at 0 and the
terminating null at 19. -/
def W5sec : List Nat :=
  BUNFS_ROOT ++ [47, 102, 111, 111, 46, 106, 115] ++ [0] ++ List.replicate 40 65

/-! ### Helper lemmas -/

theorem pyUnpackU32_ok (s : List Nat) (off : Int) (h0 : 0 ≤ off)
    (h4 : off + 4 ≤ (s.length : Int)) :
    pyUnpackU32 s off = Except.ok (readU32 s off.toNat) := by
  have hneg : ¬ off < 0 := by omega
  simp [pyUnpackU32, hneg, h0, h4]

theorem pyUnpackU32_error (s : List Nat) (off : Int) (e : FormatError)
    (h : pyUnpackU32 s off = Except.error e) : e = FormatError.structError := by
  simp only [pyUnpackU32] at h
  split at h <;> split at h <;> simp_all

theorem except_error_bind {ε α β : Type} (e : ε) (f : α → Except ε β) :
    (Except.error e >>= f) = Except.error e := rfl

theorem except_ok_bind {ε α β : Type} (a : α) (f : α → Except ε β) :
    (Except.ok a >>= f) = f a := rfl

theorem except_bind_error {ε α β : Type} {x : Except ε α} {f : α → Except ε β}
    {e : ε} (h : x >>= f = Except.error e) :
    x = Except.error e ∨ ∃ a, x = Except.ok a ∧ f a = Except.error e := by
  cases x with
  | error e1 =>
    have h1 : (Except.error e1 : Except ε β) = Except.error e :=
      (except_error_bind e1 f).symm.trans h
    injection h1 with he
    exact Or.inl (by rw [he])
  | ok a => exact Or.inr ⟨a, rfl, (except_ok_bind a f).symm.trans h⟩

theorem decodeRecord_error (sec : List Nat) (ms : Int) (cs i : Nat)
    (e : FormatError) (h : decodeRecord sec ms cs i = Except.error e) :
    e = FormatError.structError := by
  simp only [decodeRecord] at h
  rcases except_bind_error h with h1 | ⟨a1, _, h1⟩
  · exact pyUnpackU32_error _ _ _ h1
  rcases except_bind_error h1 with h2 | ⟨a2, _, h2⟩
  · exact pyUnpackU32_error _ _ _ h2
  rcases except_bind_error h2 with h3 | ⟨a3, _, h3⟩
  · exact pyUnpackU32_error _ _ _ h3
  rcases except_bind_error h3 with h4 | ⟨a4, _, h4⟩
  · exact pyUnpackU32_error _ _ _ h4
  exact absurd h4 (by simp)

theorem mapM_ok_of_forall_ok {ε α β : Type} (f : α → Except ε β) (g : α → β) :
    ∀ l : List α, (∀ a ∈ l, f a = Except.ok (g a)) →
      l.mapM f = Except.ok (l.map g)
  | [], _ => rfl
  | a :: t, h => by
    rw [List.mapM_cons, h a (List.mem_cons_self a t),
      mapM_ok_of_forall_ok f g t (fun b hb => h b (List.mem_cons_of_mem a hb))]
    rfl

theorem mapM_error_exists {ε α β : Type} (f : α → Except ε β) :
    ∀ (l : List α) (e : ε), l.mapM f = Except.error e →
      ∃ a ∈ l, f a = Except.error e
  | [], e, h => absurd h (by simp [List.mapM_nil]; exact fun h => by cases h)
  | a :: t, e, h => by
    rw [List.mapM_cons] at h
    rcases except_bind_error h with h1 | ⟨x, _, h2⟩
    · exact ⟨a, List.mem_cons_self a t, h1⟩
    rcases except_bind_error h2 with h3 | ⟨xs, _, h4⟩
    · obtain ⟨b, hb, hfb⟩ := mapM_error_exists f t e h3
      exact ⟨b, List.mem_cons_of_mem a hb, hfb⟩
    · exact Except.noConfusion h4

theorem inferChunkSize_some_iff (L cs : Nat) :
    inferChunkSize L = some cs ↔
      ((cs = 52 ∧ L % 52 = 0) ∨
       (cs = 28 ∧ L % 52 ≠ 0 ∧ L % 28 = 0) ∨
       (cs = 32 ∧ L % 52 ≠ 0 ∧ L % 28 ≠ 0 ∧ L % 32 = 0)) := by
  by_cases h52 : L % 52 = 0
  · have e52 : (L % 52 == 0) = true := by simp [h52]
    simp [inferChunkSize, CHUNK_CANDIDATES, List.find?, e52, h52, eq_comm]
  · have e52 : (L % 52 == 0) = false := by simp [h52]
    by_cases h28 : L % 28 = 0
    · have e28 : (L % 28 == 0) = true := by simp [h28]
      simp [inferChunkSize, CHUNK_CANDIDATES, List.find?, e52, e28, h52, h28, eq_comm]
    · have e28 : (L % 28 == 0) = false := by simp [h28]
      by_cases h32 : L % 32 = 0
      · have e32 : (L % 32 == 0) = true := by simp [h32]
        simp [inferChunkSize, CHUNK_CANDIDATES, List.find?, e52, e28, e32,
          h52, h28, h32, eq_comm]
      · have e32 : (L % 32 == 0) = false := by simp [h32]
        simp [inferChunkSize, CHUNK_CANDIDATES, List.find?, e52, e28, e32,
          h52, h28, h32]

theorem inferChunkSize_eq_none_iff (L : Nat) :
    inferChunkSize L = none ↔ ¬(L % 52 = 0 ∨ L % 28 = 0 ∨ L % 32 = 0) := by
  by_cases h52 : L % 52 = 0
  · have e52 : (L % 52 == 0) = true := by simp [h52]
    simp [inferChunkSize, CHUNK_CANDIDATES, List.find?, e52, h52]
  · have e52 : (L % 52 == 0) = false := by simp [h52]
    by_cases h28 : L % 28 = 0
    · have e28 : (L % 28 == 0) = true := by simp [h28]
      simp [inferChunkSize, CHUNK_CANDIDATES, List.find?, e52, e28, h52, h28]
    · have e28 : (L % 28 == 0) = false := by simp [h28]
      by_cases h32 : L % 32 = 0
      · have e32 : (L % 32 == 0) = true := by simp [h32]
        simp [inferChunkSize, CHUNK_CANDIDATES, List.find?, e52, e28, e32,
          h52, h28, h32]
      · have e32 : (L % 32 == 0) = false := by simp [h32]
        simp [inferChunkSize, CHUNK_CANDIDATES, List.find?, e52, e28, e32,
          h52, h28, h32]

theorem parse_footer_eq_last48 (sec : List Nat) (h : 48 ≤ sec.length) :
    parse_footer sec = footerFromLast (lastBytes 48 sec) := by
  have hA : pySliceFrom sec ((sec.length : Int) - (BUN_TRAILER.length : Int)) =
      sec.drop (sec.length - 16) := by
    have hl : BUN_TRAILER.length = 16 := rfl
    have hneg : ¬ ((sec.length : Int) - (BUN_TRAILER.length : Int) < 0) := by
      rw [hl]; omega
    have htn : ((sec.length : Int) - (BUN_TRAILER.length : Int)).toNat =
        sec.length - 16 := by
      rw [hl]; omega
    simp [pySliceFrom, hneg, htn]
  have hB : (lastBytes 48 sec).drop 32 = sec.drop (sec.length - 16) := by
    simp only [lastBytes, List.drop_drop]
    congr 1
    omega
  have hread : ∀ k : Nat, readU32 (lastBytes 48 sec) k =
      readU32 sec (sec.length - 48 + k) := by
    intro k
    simp only [readU32, lastBytes, List.getD_eq_getElem?_getD, List.getElem?_drop,
      Nat.add_assoc]
  have h48 := pyUnpackU32_ok sec ((sec.length : Int) + (-48)) (by omega) (by omega)
  have h44 := pyUnpackU32_ok sec ((sec.length : Int) + (-44)) (by omega) (by omega)
  have h40 := pyUnpackU32_ok sec ((sec.length : Int) + (-40)) (by omega) (by omega)
  have h36 := pyUnpackU32_ok sec ((sec.length : Int) + (-36)) (by omega) (by omega)
  have ht48 : ((sec.length : Int) + (-48)).toNat = sec.length - 48 + 0 := by omega
  have ht44 : ((sec.length : Int) + (-44)).toNat = sec.length - 48 + 4 := by omega
  have ht40 : ((sec.length : Int) + (-40)).toNat = sec.length - 48 + 8 := by omega
  have ht36 : ((sec.length : Int) + (-36)).toNat = sec.length - 48 + 12 := by omega
  rw [ht48] at h48
  rw [ht44] at h44
  rw [ht40] at h40
  rw [ht36] at h36
  by_cases htr : sec.drop (sec.length - 16) = BUN_TRAILER
  · simp only [parse_footer, hA, htr, if_pos, footerFromLast, hB, h48, h44, h40,
      h36, hread, except_ok_bind]
  · simp only [parse_footer, hA, footerFromLast, hB, if_neg htr]

theorem bytesFind_prefix (nd s : List Nat) (hp : nd.isPrefixOf s = true) :
    bytesFind nd s = some 0 := by
  cases s with
  | nil => simp [bytesFind, hp]
  | cons a t => simp [bytesFind, hp]

theorem bytesFind_eq_none_of_not_infix (nd s : List Nat) (h : ¬ nd <:+: s) :
    bytesFind nd s = none := by
  induction s with
  | nil =>
    cases nd with
    | nil => exact absurd List.nil_infix h
    | cons x xs => simp [bytesFind, List.isPrefixOf]
  | cons a t ih =>
    have h1 : nd.isPrefixOf (a :: t) = false := by
      rw [Bool.eq_false_iff]
      intro hp
      exact h (List.isPrefixOf_iff_prefix.mp hp).isInfix
    have h2 : ¬ nd <:+: t := fun hi => h (List.infix_cons hi)
    simp [bytesFind, h1, ih h2]

theorem pySlice_length (s : List Nat) (a b : Nat) :
    (pySlice s a b).length = min b s.length - a := by
  simp [pySlice, List.length_drop, List.length_take]

theorem pySlice_getD (s : List Nat) (a b j : Nat) (hj : a + j < min b s.length) :
    (pySlice s a b).getD j 0 = s.getD (a + j) 0 := by
  simp only [pySlice, List.getD_eq_getElem?_getD, List.getElem?_drop,
    List.getElem?_take]
  rw [if_pos (by omega)]

theorem decodeRecord_ok (sec : List Nat) (ms : Int) (cs i : Nat)
    (h0 : 0 ≤ ms + (i : Int) * (cs : Int))
    (h16 : (ms + (i : Int) * (cs : Int)).toNat + 16 ≤ sec.length) :
    decodeRecord sec ms cs i = Except.ok
      ⟨i,
       recover_path sec i (readU32 sec ((ms + (i : Int) * (cs : Int)).toNat + 0))
         (readU32 sec ((ms + (i : Int) * (cs : Int)).toNat + 4)),
       pySlice sec (readU32 sec ((ms + (i : Int) * (cs : Int)).toNat + 8))
         (readU32 sec ((ms + (i : Int) * (cs : Int)).toNat + 8) +
          readU32 sec ((ms + (i : Int) * (cs : Int)).toNat + 12)),
       is_text (pySlice sec (readU32 sec ((ms + (i : Int) * (cs : Int)).toNat + 8))
         (readU32 sec ((ms + (i : Int) * (cs : Int)).toNat + 8) +
          readU32 sec ((ms + (i : Int) * (cs : Int)).toNat + 12)))⟩ := by
  have hA := pyUnpackU32_ok sec (ms + (i : Int) * (cs : Int)) h0 (by omega)
  have hB := pyUnpackU32_ok sec (ms + (i : Int) * (cs : Int) + 4) (by omega) (by omega)
  have hC := pyUnpackU32_ok sec (ms + (i : Int) * (cs : Int) + 8) (by omega) (by omega)
  have hD := pyUnpackU32_ok sec (ms + (i : Int) * (cs : Int) + 12) (by omega) (by omega)
  have tA : (ms + (i : Int) * (cs : Int)).toNat = (ms + (i : Int) * (cs : Int)).toNat + 0 := by
    omega
  have tB : (ms + (i : Int) * (cs : Int) + 4).toNat =
      (ms + (i : Int) * (cs : Int)).toNat + 4 := by omega
  have tC : (ms + (i : Int) * (cs : Int) + 8).toNat =
      (ms + (i : Int) * (cs : Int)).toNat + 8 := by omega
  have tD : (ms + (i : Int) * (cs : Int) + 12).toNat =
      (ms + (i : Int) * (cs : Int)).toNat + 12 := by omega
  rw [tB] at hB
  rw [tC] at hC
  rw [tD] at hD
  simp only [decodeRecord, hA, hB, hC, hD, except_ok_bind, ← tA]

theorem bytesFind_some_spec (nd : List Nat) :
    ∀ (s : List Nat) (k : Nat), bytesFind nd s = some k →
      nd.isPrefixOf (s.drop k) = true ∧
      ∀ j, j < k → nd.isPrefixOf (s.drop j) = false := by
  intro s
  induction s with
  | nil =>
    intro k h
    simp only [bytesFind] at h
    by_cases hp : nd.isPrefixOf ([] : List Nat) = true
    · rw [if_pos hp] at h
      injection h with hk
      subst hk
      exact ⟨by simpa using hp, fun j hj => absurd hj (by omega)⟩
    · rw [if_neg hp] at h
      exact absurd h (by simp)
  | cons a t ih =>
    intro k h
    simp only [bytesFind] at h
    by_cases hp : nd.isPrefixOf (a :: t) = true
    · rw [if_pos hp] at h
      injection h with hk
      subst hk
      exact ⟨by simpa using hp, fun j hj => absurd hj (by omega)⟩
    · rw [if_neg hp] at h
      cases hf : bytesFind nd t with
      | none => rw [hf] at h; exact absurd h (by simp)
      | some k0 =>
        rw [hf] at h
        simp at h
        subst h
        obtain ⟨hp0, hmax⟩ := ih k0 hf
        refine ⟨by simpa [List.drop_succ_cons] using hp0, ?_⟩
        intro j hj
        cases j with
        | zero => simpa using Bool.eq_false_iff.mpr hp
        | succ j0 =>
          simpa [List.drop_succ_cons] using hmax j0 (by omega)

theorem bytesFind_none_spec (nd : List Nat) :
    ∀ s : List Nat, bytesFind nd s = none →
      ∀ j, nd.isPrefixOf (s.drop j) = false := by
  intro s
  induction s with
  | nil =>
    intro h j
    simp only [bytesFind] at h
    by_cases hp : nd.isPrefixOf ([] : List Nat) = true
    · rw [if_pos hp] at h
      exact absurd h (by simp)
    · rw [if_neg hp] at h
      simpa [List.drop_nil] using Bool.eq_false_iff.mpr hp
  | cons a t ih =>
    intro h j
    simp only [bytesFind] at h
    by_cases hp : nd.isPrefixOf (a :: t) = true
    · rw [if_pos hp] at h
      exact absurd h (by simp)
    · rw [if_neg hp] at h
      cases j with
      | zero => simpa using Bool.eq_false_iff.mpr hp
      | succ j0 =>
        have hf : bytesFind nd t = none := by
          cases hf : bytesFind nd t with
          | none => rfl
          | some k0 => rw [hf] at h; exact absurd h (by simp)
        simpa [List.drop_succ_cons] using ih hf j0

theorem bytesRfind_none_spec (nd : List Nat) (hnd : nd ≠ []) :
    ∀ s : List Nat, bytesRfind nd s = none →
      ∀ j, nd.isPrefixOf (s.drop j) = false := by
  intro s
  induction s with
  | nil =>
    intro _ j
    cases nd with
    | nil => exact absurd rfl hnd
    | cons x xs => simp [List.drop_nil, List.isPrefixOf]
  | cons a t ih =>
    intro h j
    simp only [bytesRfind] at h
    cases hf : bytesRfind nd t with
    | some k0 => rw [hf] at h; exact absurd h (by simp)
    | none =>
      rw [hf] at h
      by_cases hp : nd.isPrefixOf (a :: t) = true
      · rw [if_pos hp] at h; exact absurd h (by simp)
      · cases j with
        | zero => simpa using Bool.eq_false_iff.mpr hp
        | succ j0 => simpa [List.drop_succ_cons] using ih hf j0

theorem bytesRfind_some_spec (nd : List Nat) (hnd : nd ≠ []) :
    ∀ (s : List Nat) (k : Nat), bytesRfind nd s = some k →
      nd.isPrefixOf (s.drop k) = true ∧
      ∀ j, k < j → nd.isPrefixOf (s.drop j) = false := by
  intro s
  induction s with
  | nil =>
    intro k h
    cases nd with
    | nil => exact absurd rfl hnd
    | cons x xs => exact absurd h (by simp [bytesRfind, List.isPrefixOf])
  | cons a t ih =>
    intro k h
    simp only [bytesRfind] at h
    cases hf : bytesRfind nd t with
    | some k0 =>
      rw [hf] at h
      injection h with hk
      subst hk
      obtain ⟨hp0, hmax⟩ := ih k0 hf
      refine ⟨by simpa [List.drop_succ_cons] using hp0, ?_⟩
      intro j hj
      cases j with
      | zero => exact absurd hj (by omega)
      | succ j0 => simpa [List.drop_succ_cons] using hmax j0 (by omega)
    | none =>
      rw [hf] at h
      by_cases hp : nd.isPrefixOf (a :: t) = true
      · rw [if_pos hp] at h
        injection h with hk
        subst hk
        refine ⟨by simpa using hp, ?_⟩
        intro j hj
        cases j with
        | zero => exact absurd hj (by omega)
        | succ j0 =>
          simpa [List.drop_succ_cons] using bytesRfind_none_spec nd hnd t hf j0
      · rw [if_neg hp] at h
        exact absurd h (by simp)

theorem prefix_head_getD {c : Nat} {nd l : List Nat}
    (h : (c :: nd).isPrefixOf l = true) : l.getD 0 0 = c ∧ l ≠ [] := by
  obtain ⟨t, ht⟩ := List.isPrefixOf_iff_prefix.mp h
  rw [← ht]
  exact ⟨rfl, by simp⟩

theorem zero_isPrefixOf_iff (s : List Nat) (j : Nat) :
    (([0] : List Nat).isPrefixOf (s.drop j) = true) ↔
      (j < s.length ∧ s.getD j 0 = 0) := by
  constructor
  · intro h
    obtain ⟨h0, hne⟩ := prefix_head_getD h
    have hlt : j < s.length := by
      by_contra hge
      exact hne (List.drop_eq_nil_iff.mpr (by omega))
    refine ⟨hlt, ?_⟩
    rw [List.getD_eq_getElem?_getD] at h0 ⊢
    rw [List.getElem?_drop] at h0
    simpa using h0
  · rintro ⟨hlt, h0⟩
    rw [List.drop_eq_getElem_cons hlt]
    have : s[j] = 0 := by
      rw [← List.getD_eq_getElem s 0 hlt]
      exact h0
    simp [List.isPrefixOf, this]

theorem searchWindow_getD (sec : List Nat) (path_off path_len k : Nat)
    (hk : k < (searchWindow sec path_off path_len).length) :
    (searchWindow sec path_off path_len).getD k 0 =
      sec.getD (searchStart path_off + k) 0 := by
  have := pySlice_length sec (searchStart path_off) (path_off + path_len + 10)
  rw [searchWindow] at hk ⊢
  rw [pySlice_getD]
  omega

/-! ### Claim theorems -/

/-- C1: whenever the record width is inferred and every record's metadata
reads and content slice are in bounds, decoding succeeds with exactly
`modules_ptr_length / record_width` modules; the i-th module is built from
the four little-endian u32 fields at sub-offsets 0, 4, 8, 12 of
`metadata_start + i * record_width` (any trailing record bytes ignored),
and its contents are byte-identical to the region bytes at
`[content_offset, content_offset + content_length)`. -/
theorem C1_module_decode (sec : List Nat) (footer : Footer) (cs : Nat)
    (hcs : inferChunkSize footer.modules_ptr_length = some cs)
    (hmeta : ∀ i, i < footer.modules_ptr_length / cs →
      0 ≤ metadataStart sec footer + (i : Int) * (cs : Int) ∧
      (metadataStart sec footer + (i : Int) * (cs : Int)).toNat + 16 ≤ sec.length)
    (hcontent : ∀ i, i < footer.modules_ptr_length / cs →
      recField sec footer cs i 8 + recField sec footer cs i 12 ≤ sec.length) :
    ∃ mods : List Module, extract_modules sec footer = Except.ok mods ∧
      mods.length = footer.modules_ptr_length / cs ∧
      ∀ i, i < footer.modules_ptr_length / cs →
        mods.getD i default = recordModule sec footer cs i ∧
        (mods.getD i default).contents.length = recField sec footer cs i 12 ∧
        ∀ j, j < recField sec footer cs i 12 →
          (mods.getD i default).contents.getD j 0 =
            sec.getD (recField sec footer cs i 8 + j) 0 := by
  refine ⟨(List.range (footer.modules_ptr_length / cs)).map
    (recordModule sec footer cs), ?_, ?_, ?_⟩
  · simp only [extract_modules, hcs]
    apply mapM_ok_of_forall_ok
    intro a ha
    obtain ⟨h0, h16⟩ := hmeta a (List.mem_range.mp ha)
    exact decodeRecord_ok sec (metadataStart sec footer) cs a h0 h16
  · simp [List.length_map, List.length_range]
  · intro i hi
    have hg : ((List.range (footer.modules_ptr_length / cs)).map
        (recordModule sec footer cs)).getD i default =
        recordModule sec footer cs i := by
      simp [List.getD_eq_getElem?_getD, List.getElem?_map, List.getElem?_range hi]
    refine ⟨hg, ?_, ?_⟩
    · rw [hg]
      show (pySlice sec (recField sec footer cs i 8)
        (recField sec footer cs i 8 + recField sec footer cs i 12)).length = _
      rw [pySlice_length]
      have := hcontent i hi
      omega
    · intro j hj
      rw [hg]
      show (pySlice sec (recField sec footer cs i 8)
        (recField sec footer cs i 8 + recField sec footer cs i 12)).getD j 0 = _
      rw [pySlice_getD]
      have := hcontent i hi
      omega

/-- C1 witness: the synthetic one-record container `W1sec`. -/
theorem C1_witness :
    ∃ mods : List Module, extract_modules W1sec W1foot = Except.ok mods ∧
      mods.length = W1foot.modules_ptr_length / 52 ∧
      ∀ i, i < W1foot.modules_ptr_length / 52 →
        mods.getD i default = recordModule W1sec W1foot 52 i ∧
        (mods.getD i default).contents.length = recField W1sec W1foot 52 i 12 ∧
        ∀ j, j < recField W1sec W1foot 52 i 12 →
          (mods.getD i default).contents.getD j 0 =
            W1sec.getD (recField W1sec W1foot 52 i 8 + j) 0 :=
  C1_module_decode W1sec W1foot 52 (by decide) (by decide) (by decide)

/-- C4 counterexample: in `C4sec` the single record declares the content
range [90, 110) inside a 100-byte region; decoding does not fail on it —
there is no out-of-bounds error for content slices — and instead yields a
module whose contents were silently clamped to the 10 available bytes. -/
theorem C4_counterexample :
    recField C4sec C4foot 52 0 8 = 90 ∧
    recField C4sec C4foot 52 0 12 = 20 ∧
    C4sec.length = 100 ∧
    (extract_modules C4sec C4foot).toOption.map
      (List.map (fun m => m.contents.length)) = some [10] := by decide

/-- C4 (amended): a content slice reaching past the region end does not
fail: whenever the width is inferred and the metadata reads are in bounds,
decoding succeeds, and each module's contents are the clamped slice
`region[content_offset : content_offset + content_length]`, whose length is
`min content_length (region.size - content_offset)` — silently shortened
(possibly empty) when the declared range exceeds the region. -/
theorem C4_content_clamped (sec : List Nat) (footer : Footer) (cs : Nat)
    (hcs : inferChunkSize footer.modules_ptr_length = some cs)
    (hmeta : ∀ i, i < footer.modules_ptr_length / cs →
      0 ≤ metadataStart sec footer + (i : Int) * (cs : Int) ∧
      (metadataStart sec footer + (i : Int) * (cs : Int)).toNat + 16 ≤ sec.length) :
    ∃ mods : List Module, extract_modules sec footer = Except.ok mods ∧
      mods.length = footer.modules_ptr_length / cs ∧
      ∀ i, i < footer.modules_ptr_length / cs →
        (mods.getD i default).contents =
          pySlice sec (recField sec footer cs i 8)
            (recField sec footer cs i 8 + recField sec footer cs i 12) ∧
        (mods.getD i default).contents.length =
          min (recField sec footer cs i 12)
            (sec.length - recField sec footer cs i 8) := by
  refine ⟨(List.range (footer.modules_ptr_length / cs)).map
    (recordModule sec footer cs), ?_, ?_, ?_⟩
  · simp only [extract_modules, hcs]
    apply mapM_ok_of_forall_ok
    intro a ha
    obtain ⟨h0, h16⟩ := hmeta a (List.mem_range.mp ha)
    exact decodeRecord_ok sec (metadataStart sec footer) cs a h0 h16
  · simp [List.length_map, List.length_range]
  · intro i hi
    have hg : ((List.range (footer.modules_ptr_length / cs)).map
        (recordModule sec footer cs)).getD i default =
        recordModule sec footer cs i := by
      simp [List.getD_eq_getElem?_getD, List.getElem?_map, List.getElem?_range hi]
    rw [hg]
    refine ⟨rfl, ?_⟩
    show (pySlice sec (recField sec footer cs i 8)
      (recField sec footer cs i 8 + recField sec footer cs i 12)).length = _
    rw [pySlice_length]
    omega

/-- C4 amended-claim witness: the overrunning container `C4sec`, where the
clamp shortens the declared 20-byte range to the 10 available bytes. -/
theorem C4_witness :
    ∃ mods : List Module, extract_modules C4sec C4foot = Except.ok mods ∧
      mods.length = C4foot.modules_ptr_length / 52 ∧
      ∀ i, i < C4foot.modules_ptr_length / 52 →
        (mods.getD i default).contents =
          pySlice C4sec (recField C4sec C4foot 52 i 8)
            (recField C4sec C4foot 52 i 8 + recField C4sec C4foot 52 i 12) ∧
        (mods.getD i default).contents.length =
          min (recField C4sec C4foot 52 i 12)
            (C4sec.length - recField C4sec C4foot 52 i 8) :=
  C4_content_clamped C4sec C4foot 52 (by decide) (by decide)

/-- C2 (amended: the region must hold at least the 48 footer bytes, or the
field reads themselves fail): for every region of at least 48 bytes, footer
parsing fails with `TrailerMismatch` exactly when the last 16 bytes differ
from the trailer marker; otherwise it returns the four little-endian u32
fields at offsets -48, -44, -40, -36 from the end, and the result depends
only on the region's trailing 48 bytes. -/
theorem C2_footer_parse (sec : List Nat) (h : 48 ≤ sec.length) :
    (parse_footer sec = Except.error FormatError.trailerMismatch ↔
      lastBytes 16 sec ≠ BUN_TRAILER) ∧
    (lastBytes 16 sec = BUN_TRAILER →
      parse_footer sec = Except.ok
        ⟨readU32 sec (sec.length - 48), readU32 sec (sec.length - 44),
         readU32 sec (sec.length - 40), readU32 sec (sec.length - 36)⟩) ∧
    (∀ t : List Nat, 48 ≤ t.length → lastBytes 48 sec = lastBytes 48 t →
      parse_footer sec = parse_footer t) := by
  have hB : (lastBytes 48 sec).drop 32 = lastBytes 16 sec := by
    simp only [lastBytes, List.drop_drop]
    congr 1
    omega
  have hread : ∀ k : Nat, readU32 (lastBytes 48 sec) k =
      readU32 sec (sec.length - 48 + k) := by
    intro k
    simp only [readU32, lastBytes, List.getD_eq_getElem?_getD, List.getElem?_drop,
      Nat.add_assoc]
  refine ⟨?_, ?_, ?_⟩
  · rw [parse_footer_eq_last48 sec h, footerFromLast, hB]
    by_cases htr : lastBytes 16 sec = BUN_TRAILER
    · simp [htr]
    · simp [htr]
  · intro htr
    rw [parse_footer_eq_last48 sec h, footerFromLast, hB, if_pos htr]
    have e48 : sec.length - 48 + 0 = sec.length - 48 := by omega
    have e44 : sec.length - 48 + 4 = sec.length - 44 := by omega
    have e40 : sec.length - 48 + 8 = sec.length - 40 := by omega
    have e36 : sec.length - 48 + 12 = sec.length - 36 := by omega
    rw [hread 0, hread 4, hread 8, hread 12, e48, e44, e40, e36]
  · intro t ht hlast
    rw [parse_footer_eq_last48 sec h, parse_footer_eq_last48 t ht, hlast]

/-- C2 counterexample: the 16-byte region that is exactly the trailer marker
matches the trailer, yet footer parsing raises a struct unpack error instead
of returning the four fields, refuting the claim for short regions. -/
theorem C2_counterexample :
    lastBytes 16 BUN_TRAILER = BUN_TRAILER ∧
    parse_footer BUN_TRAILER = Except.error FormatError.structError ∧
    FormatError.structError ≠ FormatError.trailerMismatch := by decide

/-- C2 witness: a concrete 48-byte region ending in the trailer. -/
theorem C2_witness :
    parse_footer W2sec = Except.ok
      ⟨readU32 W2sec (W2sec.length - 48), readU32 W2sec (W2sec.length - 44),
       readU32 W2sec (W2sec.length - 40), readU32 W2sec (W2sec.length - 36)⟩ :=
  (C2_footer_parse W2sec (by decide)).2.1 (by decide)

/-- C3: record-width inference tests the candidates 52, 28, 32 in that fixed
order and selects the first one that exactly divides `modules_ptr_length`;
decoding fails with `UnknownRecordWidth` exactly when none divides it. -/
theorem C3_record_width (sec : List Nat) (footer : Footer) :
    (extract_modules sec footer = Except.error FormatError.unknownRecordWidth ↔
      ¬(footer.modules_ptr_length % 52 = 0 ∨ footer.modules_ptr_length % 28 = 0 ∨
        footer.modules_ptr_length % 32 = 0)) ∧
    (∀ cs : Nat, inferChunkSize footer.modules_ptr_length = some cs ↔
      ((cs = 52 ∧ footer.modules_ptr_length % 52 = 0) ∨
       (cs = 28 ∧ footer.modules_ptr_length % 52 ≠ 0 ∧
         footer.modules_ptr_length % 28 = 0) ∨
       (cs = 32 ∧ footer.modules_ptr_length % 52 ≠ 0 ∧
         footer.modules_ptr_length % 28 ≠ 0 ∧
         footer.modules_ptr_length % 32 = 0))) := by
  refine ⟨?_, fun cs => inferChunkSize_some_iff _ cs⟩
  cases hc : inferChunkSize footer.modules_ptr_length with
  | none =>
    simp only [extract_modules, hc]
    simpa using (inferChunkSize_eq_none_iff footer.modules_ptr_length).mp hc
  | some cs =>
    constructor
    · intro h
      simp only [extract_modules, hc] at h
      obtain ⟨i, _, hi⟩ := mapM_error_exists _ _ _ h
      exact absurd (decodeRecord_error _ _ _ _ _ hi) (by simp)
    · intro h
      exfalso
      apply h
      rcases (inferChunkSize_some_iff footer.modules_ptr_length cs).mp hc with
        ⟨_, h1⟩ | ⟨_, _, h1⟩ | ⟨_, _, _, h1⟩
      · exact Or.inl h1
      · exact Or.inr (Or.inl h1)
      · exact Or.inr (Or.inr h1)

/-- C7: a module is text iff strictly more than 900 of its first 1000
content bytes are printable ASCII (32..126) or tab/newline/carriage-return;
a 1000-byte buffer with exactly 901 such bytes is text, with exactly 900 it
is binary. -/
theorem C7_text_classification (contents : List Nat) :
    (∀ b : Nat, isTextByte b = true ↔
      ((32 ≤ b ∧ b ≤ 126) ∨ b = 9 ∨ b = 10 ∨ b = 13)) ∧
    (is_text contents = true ↔
      900 < ((contents.take 1000).filter isTextByte).length) ∧
    (contents.length = 1000 →
      (((contents.filter isTextByte).length = 901 → is_text contents = true) ∧
       ((contents.filter isTextByte).length = 900 → is_text contents = false))) := by
  refine ⟨fun b => by simp [isTextByte]; omega, ?_, ?_⟩
  · simp [is_text, List.countP_eq_length_filter]
  · intro hlen
    have htake : contents.take 1000 = contents :=
      List.take_of_length_le (by omega)
    constructor
    · intro h901
      simp [is_text, List.countP_eq_length_filter, htake, h901]
    · intro h900
      simp [is_text, List.countP_eq_length_filter, htake, h900]

/-- C7 witness: concrete 1000-byte buffers with exactly 901 and exactly 900
printable bytes. -/
theorem C7_witness :
    (List.replicate 901 65 ++ List.replicate 99 0 : List Nat).length = 1000 ∧
    is_text (List.replicate 901 65 ++ List.replicate 99 0) = true ∧
    is_text (List.replicate 900 65 ++ List.replicate 100 0) = false :=
  ⟨by decide,
    ((C7_text_classification (List.replicate 901 65 ++ List.replicate 99 0)).2.2
      (by decide)).1 (by decide),
    ((C7_text_classification (List.replicate 900 65 ++ List.replicate 100 0)).2.2
      (by decide)).2 (by decide)⟩

/-- C9: a module with fewer than 901 content bytes is always classified
binary, because the `> 900` threshold counts bytes absolutely rather than
as a fraction of the sample. -/
theorem C9_short_is_binary (contents : List Nat) (h : contents.length < 901) :
    is_text contents = false := by
  have h1 : (contents.take 1000).countP isTextByte ≤ (contents.take 1000).length :=
    List.countP_le_length _
  have h2 : (contents.take 1000).length ≤ contents.length := by
    simp [List.length_take]
  simp only [is_text, decide_eq_false_iff_not]
  omega

/-- C9 witness: a fully printable 500-byte module is classified binary. -/
theorem C9_witness :
    (∀ b ∈ (List.replicate 500 65 : List Nat), 32 ≤ b ∧ b < 127) ∧
    is_text (List.replicate 500 65) = false :=
  ⟨by decide, C9_short_is_binary (List.replicate 500 65) (by decide)⟩

/-- C10: with `modules_ptr_length = 0`, width inference selects the first
candidate 52 (0 is divisible by every candidate) and decoding returns the
empty module list without any error. -/
theorem C10_empty_index (sec : List Nat) (footer : Footer)
    (h : footer.modules_ptr_length = 0) :
    inferChunkSize footer.modules_ptr_length = some 52 ∧
    extract_modules sec footer = Except.ok [] := by
  have h52 : inferChunkSize footer.modules_ptr_length = some 52 := by
    simp [inferChunkSize, CHUNK_CANDIDATES, h, List.find?]
  refine ⟨h52, ?_⟩
  simp only [extract_modules, h52, h]
  rfl

/-- C10 witness: the all-zero footer on the empty region decodes to an
empty module list. -/
theorem C10_witness :
    inferChunkSize (Footer.mk 0 0 0 0).modules_ptr_length = some 52 ∧
    extract_modules [] ⟨0, 0, 0, 0⟩ = Except.ok [] :=
  C10_empty_index [] ⟨0, 0, 0, 0⟩ rfl

/-- C8: stripping the wrapper from `WRAPPER ++ b` yields `b` with its
leading control bytes (values below 32 other than tab, newline,
carriage-return) removed; a buffer in which the wrapper literal does not
occur is returned unmodified. -/
theorem C8_wrapper_strip (b c : List Nat) (hc : ¬ WRAPPER <:+: c) :
    strip_bytecode_prefix (WRAPPER ++ b) = b.dropWhile isCtrlPad ∧
    strip_bytecode_prefix c = c := by
  constructor
  · have hp : WRAPPER.isPrefixOf (WRAPPER ++ b) = true :=
      List.isPrefixOf_iff_prefix.mpr (List.prefix_append _ _)
    simp only [ strip_bytecode_prefix, bytesFind_prefix _ _ hp, Nat.zero_add,
      List.drop_left]
  · simp only [ strip_bytecode_prefix, bytesFind_eq_none_of_not_infix _ _ hc]

/-- C8 witness: concrete wrapped and wrapper-free buffers. -/
theorem C8_witness :
    strip_bytecode_prefix (WRAPPER ++ [0, 65]) = List.dropWhile isCtrlPad [0, 65] ∧
    strip_bytecode_prefix [104, 105] = [104, 105] :=
  C8_wrapper_strip [0, 65] [104, 105] (by decide)

/-- C6 counterexample: on the empty region (no marker, no null terminator,
empty after stripping) path recovery returns the string `module_0.js`, not
the placeholder `module_0` stated by the claim. -/
theorem C6_counterexample :
    recover_path [] 0 0 0 = modulePlaceholder 0 ∧
    stripChars [47, 10, 9, 0] (stripBunfsPrefix (recover_raw_path [] 0 0)) = [] ∧
    modulePlaceholder 0 = [109, 111, 100, 117, 108, 101, 95, 48, 46, 106, 115] ∧
    modulePlaceholder 0 ≠ [109, 111, 100, 117, 108, 101, 95, 48] := by decide

/-- C6 (amended: the synthesized placeholder is `module_<i>.js`, with a
`.js` suffix): path recovery is total, never returns the empty string, and
whenever the recovered string is empty after prefix and separator stripping
it returns the placeholder `module_<i>.js` derived from the record index. -/
theorem C6_path_total (sec : List Nat) (i path_off path_len : Nat) :
    recover_path sec i path_off path_len ≠ [] ∧
    (stripChars [47, 10, 9, 0]
        (stripBunfsPrefix (recover_raw_path sec path_off path_len)) = [] →
      recover_path sec i path_off path_len = modulePlaceholder i) := by
  constructor
  · simp only [recover_path]
    split
    · simp [modulePlaceholder]
    · assumption
  · intro hemp
    simp [recover_path, hemp]

/-- C6 witness: a concrete record index on the empty region. -/
theorem C6_witness :
    stripChars [47, 10, 9, 0] (stripBunfsPrefix (recover_raw_path [] 3 0)) = [] ∧
    recover_path [] 3 3 0 ≠ [] ∧
    recover_path [] 3 3 0 = modulePlaceholder 3 :=
  ⟨by decide, (C6_path_total [] 3 3 0).1, (C6_path_total [] 3 3 0).2 (by decide)⟩

/-- C5: path recovery searches the window
`[max(0, path_offset - 50), path_offset + path_length + 10)` of the region
for the last occurrence of the synthetic root marker. If it is found at
window index `k`, the recovered raw path is the replace-mode UTF-8 decoding
of the bytes from the marker position to the first null byte at or after it
(the forward scan is bounded by the end of the region); when no null byte
exists from the marker to the end of the region, it falls back to splitting
the `path_length + 20`-byte slice at the marker position on its first null
byte. If the marker is not found, the raw path is the direct decoded read of
`region[path_offset : path_offset + path_length]`. -/
theorem C5_path_recovery (sec : List Nat) (path_off path_len : Nat) :
    (bytesRfind BUNFS_ROOT (searchWindow sec path_off path_len) = none →
      (∀ j, BUNFS_ROOT.isPrefixOf
        ((searchWindow sec path_off path_len).drop j) = false) ∧
      recover_raw_path sec path_off path_len =
        utf8DecodeReplace (pySlice sec path_off (path_off + path_len))) ∧
    (∀ k, bytesRfind BUNFS_ROOT (searchWindow sec path_off path_len) = some k →
      (BUNFS_ROOT.isPrefixOf
        ((searchWindow sec path_off path_len).drop k) = true ∧
        ∀ j, k < j → BUNFS_ROOT.isPrefixOf
          ((searchWindow sec path_off path_len).drop j) = false) ∧
      (∀ j, bytesFind [0] (sec.drop (searchStart path_off + k)) = some j →
        (sec.getD (searchStart path_off + k + j) 0 = 0 ∧
          searchStart path_off + k + j < sec.length ∧
          ∀ j', j' < j → sec.getD (searchStart path_off + k + j') 0 ≠ 0) ∧
        recover_raw_path sec path_off path_len =
          utf8DecodeReplace (pySlice sec (searchStart path_off + k)
            (searchStart path_off + k + j))) ∧
      (bytesFind [0] (sec.drop (searchStart path_off + k)) = none →
        (∀ p, searchStart path_off + k ≤ p → p < sec.length →
          sec.getD p 0 ≠ 0) ∧
        recover_raw_path sec path_off path_len =
          utf8DecodeReplace ((pySlice sec (searchStart path_off + k)
            (searchStart path_off + k + path_len + 20)).takeWhile
              (fun b => b ≠ 0)))) := by
  constructor
  · intro hrf
    refine ⟨bytesRfind_none_spec BUNFS_ROOT (by decide) _ hrf, ?_⟩
    simp only [recover_raw_path, hrf]
  · intro k hrf
    have hchar := bytesRfind_some_spec BUNFS_ROOT (by decide) _ k hrf
    have hpk : ((47 : Nat) ::
        [36, 98, 117, 110, 102, 115, 47, 114, 111, 111, 116]).isPrefixOf
        ((searchWindow sec path_off path_len).drop k) = true := hchar.1
    obtain ⟨h47, hne⟩ := prefix_head_getD hpk
    have hklt : k < (searchWindow sec path_off path_len).length := by
      by_contra hge
      exact hne (List.drop_eq_nil_iff.mpr (by omega))
    have hw47 : (searchWindow sec path_off path_len).getD k 0 = 47 := by
      have h1 : ((searchWindow sec path_off path_len).drop k).getD 0 0 =
          (searchWindow sec path_off path_len).getD (k + 0) 0 := by
        simp [List.getD_eq_getElem?_getD, List.getElem?_drop]
      rw [h1] at h47
      simpa using h47
    have hm47 : sec.getD (searchStart path_off + k) 0 = 47 := by
      rw [← searchWindow_getD sec path_off path_len k hklt]
      exact hw47
    refine ⟨hchar, ?_, ?_⟩
    · intro j hfind
      have hnull := bytesFind_some_spec [0] _ j hfind
      have hzp := hnull.1
      rw [List.drop_drop] at hzp
      have hz := (zero_isPrefixOf_iff sec (searchStart path_off + k + j)).mp hzp
      have hz0 : sec.getD (searchStart path_off + k + j) 0 = 0 := hz.2
      have hzlt : searchStart path_off + k + j < sec.length := hz.1
      refine ⟨⟨hz0, hzlt, ?_⟩, ?_⟩
      · intro j' hj'
        have hf' := hnull.2 j' hj'
        rw [List.drop_drop] at hf'
        have hnp : ¬ (([0] : List Nat).isPrefixOf
            (sec.drop (searchStart path_off + k + j')) = true) := by
          rw [hf']
          simp
        rw [zero_isPrefixOf_iff] at hnp
        push_neg at hnp
        exact hnp (by omega)
      · have hpos : 0 < searchStart path_off + k + j := by
          rcases Nat.eq_zero_or_pos (searchStart path_off + k + j) with hp | hp
          · exfalso
            have hm0 : searchStart path_off + k = 0 := by omega
            have hj0 : j = 0 := by omega
            have h00 : sec.getD 0 0 = 0 := by
              have hz0' := hz0
              rw [hm0, hj0] at hz0'
              simpa using hz0'
            rw [hm0] at hm47
            omega
          · exact hp
        simp only [recover_raw_path, hrf, hfind]
        rw [if_pos (show (0 : Int) <
          ((searchStart path_off + k : Nat) : Int) + (j : Nat) by
            push_cast; omega)]
        have ht : (((searchStart path_off + k : Nat) : Int) + (j : Nat)).toNat =
            searchStart path_off + k + j := by omega
        rw [ht]
    · intro hfind
      refine ⟨?_, ?_⟩
      · intro p hple hplt
        have hf' := bytesFind_none_spec [0] _ hfind (p - (searchStart path_off + k))
        rw [List.drop_drop] at hf'
        have hidx : searchStart path_off + k + (p - (searchStart path_off + k)) = p := by
          omega
        rw [hidx] at hf'
        have hnp : ¬ (([0] : List Nat).isPrefixOf (sec.drop p) = true) := by
          rw [hf']
          simp
        rw [zero_isPrefixOf_iff] at hnp
        push_neg at hnp
        exact hnp hplt
      · simp only [recover_raw_path, hrf, hfind]
        rw [if_neg (by decide : ¬ (0 : Int) < -1)]

/-- C5 witness: in `W5sec` the marker is found at window index 0 and the
first null byte 19 bytes after it; the recovered raw path is the decoding
of the bytes from the marker to that null byte. -/
theorem C5_witness :
    bytesRfind BUNFS_ROOT (searchWindow W5sec 5 10) = some 0 ∧
    bytesFind [0] (W5sec.drop (searchStart 5 + 0)) = some 19 ∧
    recover_raw_path W5sec 5 10 =
      utf8DecodeReplace (pySlice W5sec (searchStart 5 + 0) (searchStart 5 + 0 + 19)) :=
  ⟨by decide, by decide,
    ((((C5_path_recovery W5sec 5 10).2 0 (by decide)).2.1) 19 (by decide)).2⟩

end Extract
